import Mathlib

/-!
Verification development for the webform-cli schema-driven extraction engine.

The TypeScript sources embedded here are `src/schemaLoader.ts` (schema
normalization), `src/extractor.ts` (field extraction, type coercion, metadata
assembly) and `src/output.ts` (metadata exclusion).  JavaScript runtime values
are modelled by the inductive type `Json` below; `undefined` is a first-class
value (`Json.undefined`) since the code distinguishes it from `null`.  JavaScript
numbers are modelled as integers (`Int`): no claim under verification depends
on fractional or exotic numeric parsing, and the integer fragment is exact.
Property access, truthiness, `Object.entries`, string conversion and numeric
conversion are modelled by `jsGet`, `jsTruthy`, `jsEntries`, `jsToString` and
`jsToNumber`, each following the ECMAScript behaviour on the fragment the
program exercises (notes on deliberately unmodelled corners appear inline).
-/

/-- Model of a JavaScript runtime value.  Objects are association lists with
distinct keys (JavaScript object keys are unique); `undefined` models the
JavaScript value `undefined`, distinct from `null`. -/
inductive Json where
  | null : Json
  | undefined : Json
  | bool : Bool → Json
  | num : Int → Json
  | str : String → Json
  | arr : List Json → Json
  | obj : List (String × Json) → Json

/-- JavaScript truthiness of a value: `null`, `undefined`, `false`, `0` and
the empty string are falsy; every object and array is truthy. -/
def jsTruthy : Json → Bool
  | .null => false
  | .undefined => false
  | .bool b => b
  | .num n => n != 0
  | .str s => s != ""
  | .arr _ => true
  | .obj _ => true

/-- Test for the JavaScript value `undefined`. -/
def isUndefined : Json → Bool
  | .undefined => true
  | _ => false

/-- JavaScript property access `o[k]` for a string key: looks the key up in an
object and yields `undefined` when the key is absent or the receiver is not an
object.  (Property access on `null`/`undefined` throws in JavaScript; the code
under verification only dereferences values it has guarded, so the total
`undefined` result here is never observed on those paths.)  `jsGetEntries` is the
entry-list worker. -/
def jsGetEntries : List (String × Json) → String → Json
  | [], _ => .undefined
  | (k', v) :: rest, k => if k = k' then v else jsGetEntries rest k

/-- JavaScript property access `o[k]` on an object value (see `jsGetEntries`). -/
def jsGet : Json → String → Json
  | .obj kvs, k => jsGetEntries kvs k
  | _, _ => .undefined

/-- JavaScript `Object.entries` restricted to objects; on every other value the
code under verification either never calls it or calls it on values whose
entry list is empty in the scenarios the claims quantify over (numbers and
booleans have no own enumerable properties; string and array inputs, which
would enumerate indexed characters/elements, do not occur in any claim). -/
def jsEntries : Json → List (String × Json)
  | .obj kvs => kvs
  | _ => []

/-- JavaScript property assignment `o[k] = v` on an association list: replaces
the value in place when the key is present, otherwise appends the new entry
(matching JavaScript object key insertion order). -/
def jsSet (kvs : List (String × Json)) (k : String) (v : Json) :
    List (String × Json) :=
  if kvs.any (fun p => p.1 = k) then
    kvs.map (fun p => if p.1 = k then (k, v) else p)
  else
    kvs ++ [(k, v)]

mutual

/-- Structural size of a `Json` value, used as the recursion fuel of the type
coercer (`convertToTypeFuel`): it strictly dominates the size of every value
reachable by property access, so descriptor recursion always terminates within
this bound. -/
def jsonFuel : Json → Nat
  | .null => 1
  | .undefined => 1
  | .bool _ => 1
  | .num _ => 1
  | .str _ => 1
  | .arr xs => 1 + jsonFuelList xs
  | .obj kvs => 1 + jsonFuelPairs kvs

/-- Combined size of a list of `Json` values. -/
def jsonFuelList : List Json → Nat
  | [] => 0
  | x :: rest => 1 + jsonFuel x + jsonFuelList rest

/-- Combined size of the entry list of a `Json` object. -/
def jsonFuelPairs : List (String × Json) → Nat
  | [] => 0
  | p :: rest => 1 + jsonFuel p.2 + jsonFuelPairs rest

end

mutual

/-- JavaScript `String(value)` on the modelled fragment: `null`/`undefined`
stringify to their names, numbers to decimal, arrays to their comma-joined
element strings (with `null`/`undefined` elements contributing the empty
string), and plain objects to `"[object Object]"`. -/
def jsToString : Json → String
  | .null => "null"
  | .undefined => "undefined"
  | .bool b => if b then "true" else "false"
  | .num n => toString n
  | .str s => s
  | .arr xs => String.intercalate "," (jsToStringElems xs)
  | .obj _ => "[object Object]"

/-- Stringification of array elements for `jsToString`: `null` and `undefined`
elements become the empty string, as in JavaScript `Array.prototype.toString`. -/
def jsToStringElems : List Json → List String
  | [] => []
  | x :: rest =>
    (match x with
     | .null => ""
     | .undefined => ""
     | y => jsToString y) :: jsToStringElems rest

end

/-- Whitespace class of JavaScript `\\s` and string trimming on the modelled
fragment: space, tab, line feed, carriage return, vertical tab and form feed
(Unicode-only space characters such as NBSP are outside the fragment the
program exercises). -/
def jsIsSpace (c : Char) : Bool :=
  c = ' ' || c = '\t' || c = '\n' || c = '\r' || c = '\x0b' || c = '\x0c'

/-- JavaScript `s.trim()`: strips leading and trailing whitespace. -/
def jsTrim (s : String) : String :=
  String.mk (((s.data.dropWhile jsIsSpace).reverse.dropWhile jsIsSpace).reverse)

/-- ASCII lowering of one character (JavaScript `toLowerCase()` restricted to
the ASCII fragment the program exercises). -/
def asciiLowerChar (c : Char) : Char :=
  if 'A' ≤ c && c ≤ 'Z' then Char.ofNat (c.toNat + 32) else c

/-- JavaScript `s.toLowerCase()` on the ASCII fragment. -/
def asciiLower (s : String) : String :=
  String.mk (s.data.map asciiLowerChar)

/-- Numeric value of a digit list, `none` unless nonempty and all ASCII digits. -/
def digitsToNat : List Char → Option Nat
  | [] => none
  | cs =>
    if cs.all Char.isDigit then
      some (cs.foldl (fun acc c => 10 * acc + (c.toNat - 48)) 0)
    else none

/-- JavaScript string-to-number conversion on the integer fragment: leading and
trailing whitespace is ignored, the empty (or all-whitespace) string converts
to `0`, an optionally signed digit string converts to its value, and anything
else is `NaN` (`none`).  Fractional, exponent and radix-prefixed literals are
outside the modelled integer fragment. -/
def parseNumString (s : String) : Option Int :=
  let t := jsTrim s
  if t = "" then some 0
  else
    match t.data with
    | '-' :: ds => (digitsToNat ds).map (fun n => -(n : Int))
    | '+' :: ds => (digitsToNat ds).map (fun n => (n : Int))
    | ds => (digitsToNat ds).map (fun n => (n : Int))

/-- JavaScript `Number(value)` with `NaN` as `none`: `null` is `0`, booleans
are `0`/`1`, strings parse via `parseNumString`, arrays convert through their
string form, and plain objects (and `undefined`) are `NaN`. -/
def jsToNumber : Json → Option Int
  | .null => some 0
  | .undefined => none
  | .bool b => some (if b then 1 else 0)
  | .num n => some n
  | .str s => parseNumString s
  | .arr xs => parseNumString (jsToString (.arr xs))
  | .obj _ => none

/-- Substring test: `strContains hay needle` models JavaScript
`hay.includes(needle)`. -/
def listStartsWith : List Char → List Char → Bool
  | [], _ => true
  | _ :: _, [] => false
  | n :: ns, h :: hs => n = h && listStartsWith ns hs

/-- Substring occurrence anywhere in the haystack (character-list form). -/
def listContainsSub (needle : List Char) : List Char → Bool
  | [] => listStartsWith needle []
  | c :: rest => listStartsWith needle (c :: rest) || listContainsSub needle rest

/-- JavaScript `hay.includes(needle)`. -/
def strContains (hay needle : String) : Bool :=
  listContainsSub needle.data hay.data

/-!  Schema normalizer (`src/schemaLoader.ts`). -/

/-- Shape sniff from `schemaLoader.ts` (`isStructuredSchema`): a schema counts
as structured when it is truthy and any of `type`, `selectors`, `structure`,
`properties` is truthy.  Note that the legacy key `fields` is not tested. -/
def isStructuredSchema (schema : Json) : Bool :=
  jsTruthy schema &&
    (jsTruthy (jsGet schema "type") || jsTruthy (jsGet schema "selectors") ||
     jsTruthy (jsGet schema "structure") || jsTruthy (jsGet schema "properties"))

/-- The five type names recognised by `convertToStructuredSchema`. -/
def typeNames : List String := ["string", "number", "boolean", "object", "array"]

/-- Selector sniff from `convertToStructuredSchema`: a string looks like a CSS
selector when it contains a dot, a hash or an opening square bracket. -/
def looksLikeSelector (s : String) : Bool :=
  s.data.any (fun c => c = '.' || c = '#' || c = '[')

/-- Structure entry synthesised for a plain selector string: the literal
`{type: "string", description: "Extracted from <sel>", nullable: true}`. -/
def stringFieldDesc (sel : String) : Json :=
  .obj [("type", .str "string"),
        ("description", .str ("Extracted from " ++ sel)),
        ("nullable", .bool true)]

/-- Normalization of a flat selector map (`convertToStructuredSchema`): string
values that look like CSS selectors become selector entries with a synthesised
string-typed structure entry; string values naming one of the five types become
structure-only entries; every other entry is dropped. -/
def convertToStructuredSchema (schema : Json) : Json :=
  let entries := jsEntries schema
  let selectors := entries.filterMap (fun p =>
    match p.2 with
    | .str v => if looksLikeSelector v then some (p.1, Json.str v) else none
    | _ => none)
  let structureMap := entries.filterMap (fun p =>
    match p.2 with
    | .str v =>
      if looksLikeSelector v then some (p.1, stringFieldDesc v)
      else if typeNames.contains v then
        some (p.1, Json.obj [("type", .str v), ("nullable", .bool true)])
      else none
    | _ => none)
  .obj [("selectors", .obj selectors), ("structure", .obj structureMap)]

/-- Split condition used by the properties branch of `parseStructuredSchema`:
the property value is a non-null object carrying a string `selector`. -/
def propSelector (v : Json) : Option String :=
  match v with
  | .obj kvs =>
    match jsGetEntries kvs "selector" with
    | .str s => some s
    | _ => none
  | _ => none

/-- Structure entry built by the legacy `fields` branch for an object field
value `v` with selector `sel`: `type` defaults to `"string"` when `v.type` is
falsy, `description` to `"Extracted from <sel>"` when `v.description` is
falsy, and `nullable` to `true` only when `v.nullable` is `undefined`. -/
def fieldsObjectDesc (v : Json) (sel : String) : Json :=
  .obj [("type", if jsTruthy (jsGet v "type") then jsGet v "type" else .str "string"),
        ("description",
          if jsTruthy (jsGet v "description") then jsGet v "description"
          else .str ("Extracted from " ++ sel)),
        ("nullable",
          if isUndefined (jsGet v "nullable") then .bool true else jsGet v "nullable")]

/-- Normalization of a structured schema (`parseStructuredSchema`): already
canonical schemas (truthy `selectors` and `structure`) pass through unchanged;
JSON-Schema-like shapes with `properties` are split into selector and
structure maps (a property value with a string `selector` loses that key in
its structure copy); a bare `type` becomes a single synthetic `root` field;
the legacy `fields` shape is converted entry-wise; anything else falls back to
`convertToStructuredSchema`. -/
def parseStructuredSchema (schema : Json) : Json :=
  if jsTruthy (jsGet schema "selectors") && jsTruthy (jsGet schema "structure") then
    schema
  else if jsTruthy (jsGet schema "type") || jsTruthy (jsGet schema "properties") then
    if jsTruthy (jsGet schema "properties") then
      let entries := jsEntries (jsGet schema "properties")
      let selectors := entries.filterMap (fun p =>
        (propSelector p.2).map (fun s => (p.1, Json.str s)))
      let structureMap := entries.map (fun p =>
        match propSelector p.2 with
        | some _ =>
          (p.1, Json.obj ((jsEntries p.2).filter (fun q => q.1 ≠ "selector")))
        | none => p)
      .obj [("selectors", .obj selectors), ("structure", .obj structureMap)]
    else
      .obj [("selectors", .obj []), ("structure", .obj [("root", schema)])]
  else if jsTruthy (jsGet schema "fields") then
    let entries := jsEntries (jsGet schema "fields")
    let selectors := entries.filterMap (fun p =>
      match p.2 with
      | .str s => some (p.1, Json.str s)
      | v => (propSelector v).map (fun s => (p.1, Json.str s)))
    let structureMap := entries.filterMap (fun p =>
      match p.2 with
      | .str s => some (p.1, stringFieldDesc s)
      | v => (propSelector v).map (fun s => (p.1, fieldsObjectDesc v s)))
    .obj [("selectors", .obj selectors), ("structure", .obj structureMap)]
  else
    convertToStructuredSchema schema

/-- Normalization dispatch performed by `loadStructuredSchema` after the JSON
file read: structured-looking schemas go through `parseStructuredSchema`,
everything else through `convertToStructuredSchema`. -/
def normalizeSchema (schema : Json) : Json :=
  if isStructuredSchema schema then parseStructuredSchema schema
  else convertToStructuredSchema schema

/-!  Type coercer (`src/extractor.ts`, `convertToType` / `validateAndStructure`). -/

/-- Test for the JavaScript value `null`. -/
def isNull : Json → Bool
  | .null => true
  | _ => false

/-- Model of `required?.includes(name)`: an array receiver uses strict
equality against the string `name`; a string receiver does substring search
(JavaScript `String.prototype.includes`); an absent `required` short-circuits
to `undefined`, which is falsy.  Other receivers would throw in JavaScript;
the typed contract declares `required?: string[]`, so they are outside the
modelled fragment and mapped to `false`. -/
def jsRequiredIncl (r : Json) (name : String) : Bool :=
  match r with
  | .arr xs => xs.any (fun x => match x with | .str s => s = name | _ => false)
  | .str s => strContains s name
  | _ => false

/-- JavaScript `xs.slice(0, m)` for an integer bound `m` (negative bounds
count from the end, clamped at zero). -/
def jsSliceTo (xs : List Json) (m : Int) : List Json :=
  if 0 ≤ m then xs.take m.toNat else xs.take (xs.length - (-m).toNat)

/-- Inclusion test of the object-coercion loop in `convertToType`:
`value[propName] !== undefined || propSchema.required?.includes(propName)`.
The second disjunct consults the property's own descriptor. -/
def propIncluded (value : Json) (n : String) (ps : Json) : Bool :=
  !(isUndefined (jsGet value n)) || jsRequiredIncl (jsGet ps "required") n

/-- Shape check of the object branch of `convertToType`: a non-object,
non-array value is replaced by `{}` (JavaScript `typeof` counts arrays as
`object`, so arrays pass the check unchanged). -/
def objOrEmpty : Json → Json
  | .obj kvs => .obj kvs
  | .arr xs => .arr xs
  | _ => .obj []

/-- Array shaping of the array branch of `convertToType`: an array keeps its
elements, a truthy scalar is wrapped as a singleton, a falsy value becomes
the empty array. -/
def arrayWrap : Json → List Json
  | .arr xs => xs
  | v => if jsTruthy v then [v] else []

/-- The `maxItems` truncation of `convertToType`: applied only when the bound
is a nonzero number exceeded by the length (`schema.maxItems && value.length >
schema.maxItems`; a truthy non-numeric bound is outside the modelled fragment,
the typed contract declaring `maxItems?: number`). -/
def applyMaxItems (m : Json) (v1 : List Json) : List Json :=
  match m with
  | .num k => if k ≠ 0 ∧ (v1.length : Int) > k then jsSliceTo v1 k else v1
  | _ => v1

/-- Fuel-indexed model of `convertToType` from `src/extractor.ts`: a `switch`
on the descriptor's `type` tag.  `string` stringifies, `number` numeric-parses
with `NaN` collapsed to `0`, `boolean` compares lowercased text against
`true`/`yes`/`1` (non-strings use truthiness), `array` shapes via `arrayWrap`,
truncates via `applyMaxItems` and recursively coerces elements with a truthy
`items` descriptor, `object` shapes via `objOrEmpty` and, when `properties`
is truthy, rebuilds the object from the declared properties in order, keeping
a property when it is present in the raw object or required by its own
descriptor (`propIncluded`) and recursively coercing its (possibly
`undefined`) raw value with the nested descriptor; every other tag returns
the value unchanged.  The fuel only bounds descriptor nesting: `convertToType`
below supplies `sizeOf schema`, which `convertToTypeFuel_congr` proves
sufficient, so the fuel-exhaustion branch is unreachable from `convertToType`.
A truthy non-object `properties` value is outside the modelled fragment (the
typed contract declares `properties?: Record<string, StructuredSchema>`). -/
def convertToTypeFuel : Nat → Json → Json → Json
  | 0, value, _ => value
  | fuel + 1, value, schema =>
    match jsGet schema "type" with
    | .str s =>
      if s = "string" then .str (jsToString value)
      else if s = "number" then .num ((jsToNumber value).getD 0)
      else if s = "boolean" then
        match value with
        | .str t => .bool (["true", "yes", "1"].contains (asciiLower t))
        | v => .bool (jsTruthy v)
      else if s = "array" then
        let v2 := applyMaxItems (jsGet schema "maxItems") (arrayWrap value)
        if jsTruthy (jsGet schema "items") then
          .arr (v2.map (fun x => convertToTypeFuel fuel x (jsGet schema "items")))
        else .arr v2
      else if s = "object" then
        let v := objOrEmpty value
        if jsTruthy (jsGet schema "properties") then
          match jsGet schema "properties" with
          | .obj plist =>
            .obj (plist.filterMap (fun p =>
              if propIncluded v p.1 p.2 then
                some (p.1, convertToTypeFuel fuel (jsGet v p.1) p.2)
              else none))
          | _ => .obj []
        else v
      else value
    | _ => value

/-- Model of `convertToType` from `src/extractor.ts`; see `convertToTypeFuel`
for the branch-by-branch description. -/
def convertToType (value schema : Json) : Json :=
  convertToTypeFuel (jsonFuel schema) value schema

/-- Per-field coercion driver `validateAndStructure` from `src/extractor.ts`:
walks the `structure` map in order; a field that is `undefined` in the raw
data is skipped unless its own descriptor's `required` list names it; a field
whose raw value is exactly `null` is kept (as `null`) only when the
descriptor's `nullable` is truthy; every other field is coerced with
`convertToType`. -/
def validateAndStructure (data schemaMap : Json) : Json :=
  .obj ((jsEntries schemaMap).filterMap (fun p =>
    let rawValue := jsGet data p.1
    if isUndefined rawValue && !(jsRequiredIncl (jsGet p.2 "required") p.1) then
      none
    else if isNull rawValue then
      if jsTruthy (jsGet p.2 "nullable") then some (p.1, Json.null) else none
    else
      some (p.1, convertToType rawValue p.2)))

/-!  Field extractor (`src/extractor.ts`, `extractStructuredData`). -/

/-- Document node abstraction: the trimmed-text and `href`-attribute reads are
all that `extractStructuredData` uses of cheerio elements. -/
structure Node where
  text : String
  href : Option String

/-- Concatenated text of a matched node set, as cheerio `element.text()`
concatenates the text of every matched element. -/
def elsText (els : List Node) : String :=
  String.join (els.map (fun n => n.text))

/-- Attempted match of the regular expression `(\d+)\s+comments?` at one
position: a nonempty maximal digit run, then nonempty whitespace, then the
literal `comment` (the optional trailing `s` does not affect the captured
group).  Because the digit run, the whitespace run and the literal are
mutually exclusive character classes, greedy maximal runs coincide with the
backtracking regex semantics. -/
def commentMatchAt (cs : List Char) : Option String :=
  let ds := cs.takeWhile Char.isDigit
  if ds.isEmpty then none
  else
    let r1 := cs.dropWhile Char.isDigit
    if (r1.takeWhile jsIsSpace).isEmpty then none
    else
      let r2 := r1.dropWhile jsIsSpace
      if listStartsWith "comment".data r2 then some (String.mk ds) else none

/-- Leftmost match of `(\d+)\s+comments?`, returning the captured digit
group, as `text.match(/(\d+)\s+comments?/)` does. -/
def searchComment : List Char → Option String
  | [] => none
  | c :: rest =>
    match commentMatchAt (c :: rest) with
    | some d => some d
    | none => searchComment rest

/-- One iteration of the selector loop in `extractStructuredData`.  The
document is a querying function from selector values to node lists; a failed
query models the caught selector-evaluation exception and resolves the field
to `null`.  A field name containing `url` (case-insensitively) reads `href`
attributes (`href || null` collapses a missing or empty attribute to `null`;
on a multi-match the collected `href` values are kept in document order).  A
field name containing `comment` takes the trimmed concatenated text and
replaces it by the digit group of `(\d+)\s+comments?` when that pattern
matches.  Otherwise more than one matched node yields the array of per-node
trimmed texts in document order, exactly one node yields its trimmed text,
and zero nodes yield `null`. -/
def extractFieldRaw (doc : Json → Except Unit (List Node))
    (fieldName : String) (selector : Json) : Json :=
  match doc selector with
  | .error _ => .null
  | .ok els =>
    if strContains (asciiLower fieldName) "url" then
      if els.length > 1 then
        .arr (els.filterMap (fun n => n.href.map Json.str))
      else
        match els with
        | [] => .null
        | n :: _ =>
          match n.href with
          | some h => if h = "" then .null else .str h
          | none => .null
    else if strContains (asciiLower fieldName) "comment" then
      let text := jsTrim (elsText els)
      match searchComment text.data with
      | some d => .str d
      | none => .str text
    else if els.length > 1 then
      .arr (els.map (fun n => .str (jsTrim n.text)))
    else if els.length > 0 then
      .str (jsTrim (elsText els))
    else
      .null

/-- The raw-extraction loop of `extractStructuredData`: every `selectors`
entry is processed independently by `extractFieldRaw`. -/
def rawExtract (doc : Json → Except Unit (List Node))
    (sels : List (String × Json)) : List (String × Json) :=
  sels.map (fun p => (p.1, extractFieldRaw doc p.1 p.2))

/-- The `_metadata` object built by `addMetadata`; the extraction instant is
threaded explicitly in place of the wall-clock read. -/
def metadataObj (now : String) : Json :=
  .obj [("schemaVersion", .str "1.0"), ("extractedAt", .str now)]

/-- Output assembler `addMetadata` from `src/extractor.ts`: shallow-merges the
data with a `_metadata` entry (`{...data, _metadata: {...}}` overwrites any
existing `_metadata` key in place and otherwise appends it). -/
def addMetadata (data : Json) (now : String) : Json :=
  .obj (jsSet (jsEntries data) "_metadata" (metadataObj now))

/-- Pipeline body of `extractStructuredData`: raw extraction over the
`selectors` entries, then — when `structure` is truthy — coercion through
`validateAndStructure`, and metadata assembly. -/
def extractStructuredData (doc : Json → Except Unit (List Node))
    (schema : Json) (now : String) : Json :=
  let rawData := Json.obj (rawExtract doc (jsEntries (jsGet schema "selectors")))
  if !jsTruthy (jsGet schema "structure") then
    addMetadata rawData now
  else
    addMetadata (validateAndStructure rawData (jsGet schema "structure")) now

/-- Metadata exclusion from `src/output.ts`: rest-destructuring away the
`_metadata` key (`const { _metadata, ...rest } = data`). -/
def excludeMetadata (data : Json) : Json :=
  .obj ((jsEntries data).filter (fun p => p.1 ≠ "_metadata"))

/-!  General lemmas about the JavaScript model. -/

theorem jsonFuel_pos (j : Json) : 0 < jsonFuel j := by
  cases j <;> simp [jsonFuel]

theorem jsonFuel_jsGetEntries_lt (k : String) :
    ∀ (kvs : List (String × Json)), jsGetEntries kvs k ≠ Json.undefined →
      jsonFuel (jsGetEntries kvs k) < 1 + jsonFuelPairs kvs := by
  intro kvs
  induction kvs with
  | nil => intro h; simp [jsGetEntries] at h
  | cons a l ih =>
    intro h
    obtain ⟨k', v⟩ := a
    rw [jsGetEntries] at h ⊢
    by_cases hk : k = k'
    · simp only [if_pos hk]
      simp [jsonFuelPairs]
      omega
    · simp only [if_neg hk] at h ⊢
      have := ih h
      simp [jsonFuelPairs]
      omega

theorem jsonFuel_jsGet_lt (j : Json) (k : String)
    (h : jsGet j k ≠ Json.undefined) : jsonFuel (jsGet j k) < jsonFuel j := by
  cases j with
  | obj kvs =>
    rw [jsGet] at h ⊢
    have := jsonFuel_jsGetEntries_lt k kvs h
    simp [jsonFuel]
    omega
  | null => simp [jsGet] at h
  | undefined => simp [jsGet] at h
  | bool b => simp [jsGet] at h
  | num n => simp [jsGet] at h
  | str s => simp [jsGet] at h
  | arr xs => simp [jsGet] at h

theorem jsonFuel_mem_pairs_lt (plist : List (String × Json)) (n : String)
    (ps : Json) (h : (n, ps) ∈ plist) : jsonFuel ps < jsonFuelPairs plist := by
  induction plist with
  | nil => simp at h
  | cons a l ih =>
    rcases List.mem_cons.mp h with h1 | h1
    · rw [← h1]
      simp [jsonFuelPairs]
      omega
    · have := ih h1
      simp [jsonFuelPairs]
      omega

theorem list_map_congr {α β : Type} {f g : α → β} :
    ∀ {l : List α}, (∀ a ∈ l, f a = g a) → l.map f = l.map g := by
  intro l
  induction l with
  | nil => intro _; rfl
  | cons a rest ih =>
    intro h
    simp only [List.map]
    rw [h a (by simp), ih (fun b hb => h b (by simp [hb]))]

theorem list_filterMap_congr {α β : Type} {f g : α → Option β} :
    ∀ {l : List α}, (∀ a ∈ l, f a = g a) → l.filterMap f = l.filterMap g := by
  intro l
  induction l with
  | nil => intro _; rfl
  | cons a rest ih =>
    intro h
    simp only [List.filterMap]
    rw [h a (by simp), ih (fun b hb => h b (by simp [hb]))]

theorem jsTruthy_jsGet_obj (j : Json) (k : String)
    (h : jsTruthy (jsGet j k) = true) : ∃ kvs, j = Json.obj kvs := by
  cases j with
  | obj kvs => exact ⟨kvs, rfl⟩
  | null => simp [jsGet, jsTruthy] at h
  | undefined => simp [jsGet, jsTruthy] at h
  | bool b => simp [jsGet, jsTruthy] at h
  | num n => simp [jsGet, jsTruthy] at h
  | str s => simp [jsGet, jsTruthy] at h
  | arr xs => simp [jsGet, jsTruthy] at h

theorem convertToTypeFuel_congr :
    ∀ (f g : Nat) (value schema : Json), jsonFuel schema ≤ f →
      jsonFuel schema ≤ g →
      convertToTypeFuel f value schema = convertToTypeFuel g value schema := by
  intro f
  induction f with
  | zero =>
    intro g value schema hf _
    have := jsonFuel_pos schema
    omega
  | succ f ih =>
    intro g value schema hf hg
    have hpos := jsonFuel_pos schema
    obtain ⟨g', rfl⟩ : ∃ g'', g = g'' + 1 := ⟨g - 1, by omega⟩
    simp only [convertToTypeFuel]
    cases hT : jsGet schema "type" with
    | str s =>
      by_cases h1 : s = "string"
      · simp [h1]
      by_cases h2 : s = "number"
      · simp [h1, h2]
      by_cases h3 : s = "boolean"
      · simp [h1, h2, h3]
      by_cases h4 : s = "array"
      · simp only [h1, h2, h3, h4, if_false, if_true]
        by_cases hit : jsTruthy (jsGet schema "items") = true
        · have hne : jsGet schema "items" ≠ Json.undefined := by
            intro hu; rw [hu] at hit; simp [jsTruthy] at hit
          have hlt := jsonFuel_jsGet_lt schema "items" hne
          simp only [hit, if_true]
          refine congrArg Json.arr (list_map_congr ?_)
          intro x _
          exact ih g' x (jsGet schema "items") (by omega) (by omega)
        · simp [hit]
      by_cases h5 : s = "object"
      · simp only [h1, h2, h3, h4, h5, if_false, if_true]
        by_cases hpr : jsTruthy (jsGet schema "properties") = true
        · have hne : jsGet schema "properties" ≠ Json.undefined := by
            intro hu; rw [hu] at hpr; simp [jsTruthy] at hpr
          have hlt := jsonFuel_jsGet_lt schema "properties" hne
          simp only [hpr, if_true]
          cases hp : jsGet schema "properties" with
          | obj plist =>
            rw [hp] at hlt
            simp only [jsonFuel] at hlt
            refine congrArg Json.obj (list_filterMap_congr ?_)
            intro p hmem
            have hps : jsonFuel p.2 < jsonFuelPairs plist :=
              jsonFuel_mem_pairs_lt plist p.1 p.2 (by simpa using hmem)
            by_cases hc : propIncluded (objOrEmpty value) p.1 p.2 = true
            · simp only [hc, if_true]
              rw [ih g' (jsGet (objOrEmpty value) p.1) p.2 (by omega) (by omega)]
            · simp [hc]
          | null => rfl
          | undefined => rfl
          | bool b => rfl
          | num n => rfl
          | str t => rfl
          | arr xs => rfl
        · simp [hpr]
      simp [h1, h2, h3, h4, h5]
    | null => rfl
    | undefined => rfl
    | bool b => rfl
    | num n => rfl
    | arr xs => rfl
    | obj kvs => rfl

theorem convertToTypeFuel_eq_convertToType (f : Nat) (value schema : Json)
    (hf : jsonFuel schema ≤ f) :
    convertToTypeFuel f value schema = convertToType value schema :=
  convertToTypeFuel_congr f (jsonFuel schema) value schema hf le_rfl

theorem convertToType_object_eq (value schema : Json)
    (plist : List (String × Json))
    (hT : jsGet schema "type" = Json.str "object")
    (hp : jsGet schema "properties" = Json.obj plist) :
    convertToType value schema =
      Json.obj (plist.filterMap (fun p =>
        if propIncluded (objOrEmpty value) p.1 p.2 then
          some (p.1, convertToType (jsGet (objOrEmpty value) p.1) p.2)
        else none)) := by
  have hpos := jsonFuel_pos schema
  obtain ⟨k, hk⟩ : ∃ k, jsonFuel schema = k + 1 := ⟨jsonFuel schema - 1, by omega⟩
  have hne : jsGet schema "properties" ≠ Json.undefined := by
    rw [hp]; intro h; exact Json.noConfusion h
  have hlt := jsonFuel_jsGet_lt schema "properties" hne
  rw [hp] at hlt
  simp only [jsonFuel] at hlt
  rw [convertToType, hk]
  simp only [convertToTypeFuel, hT, hp]
  norm_num
  refine congrArg Json.obj (list_filterMap_congr ?_)
  intro p hmem
  have hps : jsonFuel p.2 < jsonFuelPairs plist :=
    jsonFuel_mem_pairs_lt plist p.1 p.2 (by simpa using hmem)
  by_cases hc : propIncluded (objOrEmpty value) p.1 p.2 = true
  · simp only [hc, if_true]
    rw [convertToTypeFuel_eq_convertToType k (jsGet (objOrEmpty value) p.1) p.2
      (by omega)]
  · simp [hc]



theorem jsGetEntries_map_replace (k : String) (v : Json) :
    ∀ (kvs : List (String × Json)), kvs.any (fun p => p.1 = k) = true →
      jsGetEntries (kvs.map (fun p => if p.1 = k then (k, v) else p)) k = v := by
  intro kvs
  induction kvs with
  | nil => simp
  | cons a l ih =>
    obtain ⟨a1, a2⟩ := a
    intro h
    rw [List.map_cons]
    by_cases ha : a1 = k
    · rw [show (if (a1, a2).1 = k then (k, v) else (a1, a2)) = (k, v) from
        if_pos ha]
      simp [jsGetEntries]
    · rw [show (if (a1, a2).1 = k then (k, v) else (a1, a2)) = (a1, a2) from
        if_neg ha]
      rw [jsGetEntries, if_neg (fun he => ha he.symm)]
      refine ih ?_
      simp only [List.any_cons, Bool.or_eq_true, decide_eq_true_eq] at h
      rcases h with h | h
      · exact absurd h ha
      · exact h

theorem jsGetEntries_map_replace_ne (k : String) (v : Json) (k' : String)
    (hne : k' ≠ k) :
    ∀ (kvs : List (String × Json)),
      jsGetEntries (kvs.map (fun p => if p.1 = k then (k, v) else p)) k' =
        jsGetEntries kvs k' := by
  intro kvs
  induction kvs with
  | nil => simp
  | cons a l ih =>
    obtain ⟨a1, a2⟩ := a
    rw [List.map_cons]
    by_cases ha : a1 = k
    · rw [show (if (a1, a2).1 = k then (k, v) else (a1, a2)) = (k, v) from
        if_pos ha]
      rw [jsGetEntries, jsGetEntries, if_neg hne,
        if_neg (fun he : k' = a1 => hne (he.trans ha))]
      exact ih
    · rw [show (if (a1, a2).1 = k then (k, v) else (a1, a2)) = (a1, a2) from
        if_neg ha]
      rw [jsGetEntries, jsGetEntries]
      by_cases hk : k' = a1
      · simp [hk]
      · simp only [if_neg hk]
        exact ih

theorem jsGetEntries_append_single (k : String) (v : Json) :
    ∀ (kvs : List (String × Json)), kvs.any (fun p => p.1 = k) = false →
      jsGetEntries (kvs ++ [(k, v)]) k = v := by
  intro kvs
  induction kvs with
  | nil => intro _; simp [jsGetEntries]
  | cons a l ih =>
    obtain ⟨a1, a2⟩ := a
    intro h
    simp only [List.any_cons, Bool.or_eq_false_iff, decide_eq_false_iff_not] at h
    rw [List.cons_append, jsGetEntries, if_neg (fun he => h.1 he.symm)]
    exact ih (by simpa using h.2)

theorem jsGetEntries_append_single_ne (k : String) (v : Json) (k' : String)
    (hne : k' ≠ k) :
    ∀ (kvs : List (String × Json)),
      jsGetEntries (kvs ++ [(k, v)]) k' = jsGetEntries kvs k' := by
  intro kvs
  induction kvs with
  | nil => simp [jsGetEntries, hne]
  | cons a l ih =>
    obtain ⟨a1, a2⟩ := a
    rw [List.cons_append, jsGetEntries, jsGetEntries]
    by_cases hk : k' = a1
    · simp [hk]
    · simp only [if_neg hk]
      exact ih

theorem jsGetEntries_jsSet_self (kvs : List (String × Json)) (k : String)
    (v : Json) : jsGetEntries (jsSet kvs k v) k = v := by
  unfold jsSet
  by_cases h : kvs.any (fun p => p.1 = k) = true
  · simp only [h, if_true]
    exact jsGetEntries_map_replace k v kvs h
  · simp only [h, if_false]
    refine jsGetEntries_append_single k v kvs ?_
    cases hb : kvs.any (fun p => p.1 = k) with
    | false => rfl
    | true => exact absurd hb h

theorem jsGetEntries_jsSet_ne (kvs : List (String × Json)) (k : String)
    (v : Json) (k' : String) (h : k' ≠ k) :
    jsGetEntries (jsSet kvs k v) k' = jsGetEntries kvs k' := by
  unfold jsSet
  by_cases hs : kvs.any (fun p => p.1 = k) = true
  · simp only [hs, if_true]
    exact jsGetEntries_map_replace_ne k v k' h kvs
  · simp only [hs, if_false]
    exact jsGetEntries_append_single_ne k v k' h kvs

theorem jsGetEntries_filter_key (key : String) :
    ∀ (kvs : List (String × Json)),
      jsGetEntries (kvs.filter (fun p => p.1 ≠ key)) key = Json.undefined := by
  intro kvs
  induction kvs with
  | nil => rfl
  | cons a l ih =>
    obtain ⟨a1, a2⟩ := a
    rw [List.filter_cons]
    by_cases ha : a1 = key
    · rw [show (decide ((a1, a2).1 ≠ key)) = false by simp [ha]]
      simpa using ih
    · rw [show (decide ((a1, a2).1 ≠ key)) = true by simp [ha]]
      simp only [jsGetEntries, if_neg (fun he : key = a1 => ha he.symm)]
      exact ih

theorem jsGetEntries_filter_ne (key k : String) (h : k ≠ key) :
    ∀ (kvs : List (String × Json)),
      jsGetEntries (kvs.filter (fun p => p.1 ≠ key)) k = jsGetEntries kvs k := by
  intro kvs
  induction kvs with
  | nil => rfl
  | cons a l ih =>
    obtain ⟨a1, a2⟩ := a
    rw [List.filter_cons]
    by_cases ha : a1 = key
    · rw [show (decide ((a1, a2).1 ≠ key)) = false by simp [ha]]
      have hr : jsGetEntries ((a1, a2) :: l) k = jsGetEntries l k := by
        rw [jsGetEntries, if_neg (fun he : k = a1 => h (he.trans ha))]
      rw [hr]
      simpa using ih
    · rw [show (decide ((a1, a2).1 ≠ key)) = true by simp [ha]]
      simp only [if_true]
      rw [jsGetEntries, jsGetEntries]
      by_cases hk : k = a1
      · simp [hk]
      · simp only [if_neg hk]
        exact ih

theorem jsGetEntries_filterMap_none (F : (String × Json) → Option (String × Json))
    (hF : ∀ p q, F p = some q → q.1 = p.1) (n : String) :
    ∀ (l : List (String × Json)), n ∉ l.map Prod.fst →
      jsGetEntries (l.filterMap F) n = Json.undefined := by
  intro l
  induction l with
  | nil => intro _; rfl
  | cons a rest ih =>
    intro hn
    simp only [List.map_cons, List.mem_cons, not_or] at hn
    cases hFa : F a with
    | none =>
      rw [List.filterMap_cons, hFa]
      exact ih (by simpa using hn.2)
    | some q =>
      obtain ⟨q1, q2⟩ := q
      have hq1 : q1 = a.1 := hF a (q1, q2) hFa
      rw [List.filterMap_cons, hFa, jsGetEntries,
        if_neg (fun he : n = q1 => hn.1 (he.trans hq1))]
      exact ih (by simpa using hn.2)

theorem jsGetEntries_filterMap_keyed (c : (String × Json) → Bool)
    (g : (String × Json) → Json) (n : String) (ps : Json) :
    ∀ (l : List (String × Json)), (l.map Prod.fst).Nodup → (n, ps) ∈ l →
      jsGetEntries
          (l.filterMap (fun p => if c p then some (p.1, g p) else none)) n =
        (if c (n, ps) then g (n, ps) else Json.undefined) := by
  intro l
  induction l with
  | nil => intro _ hmem; simp at hmem
  | cons a rest ih =>
    intro hnd hmem
    rw [List.map_cons, List.nodup_cons] at hnd
    rcases List.mem_cons.mp hmem with h1 | h1
    · have ha : a = (n, ps) := h1.symm
      subst ha
      rw [List.filterMap_cons]
      cases hc : c (n, ps) with
      | true =>
        simp only [hc, if_true]
        rw [jsGetEntries, if_pos rfl]
      | false =>
        simp only [hc, Bool.false_eq_true, if_false]
        rw [jsGetEntries_filterMap_none _ ?hF n rest (by simpa using hnd.1)]
        case hF =>
          intro p q hpq
          by_cases hcp : c p = true
          · rw [if_pos hcp] at hpq
            cases hpq
            rfl
          · rw [if_neg hcp] at hpq
            cases hpq
    · have hkey : n ∈ rest.map Prod.fst :=
        List.mem_map_of_mem Prod.fst h1
      have hne : a.1 ≠ n := fun he => hnd.1 (he ▸ hkey)
      rw [List.filterMap_cons]
      cases hc : c a with
      | true =>
        simp only [hc, if_true]
        rw [jsGetEntries, if_neg (fun he : n = a.1 => hne he.symm)]
        exact ih hnd.2 h1
      | false =>
        simp only [hc, Bool.false_eq_true, if_false]
        exact ih hnd.2 h1

theorem normalizeSchema_canonical (y : Json)
    (h1 : jsTruthy (jsGet y "selectors") = true)
    (h2 : jsTruthy (jsGet y "structure") = true) : normalizeSchema y = y := by
  obtain ⟨kvs, hk⟩ := jsTruthy_jsGet_obj y "selectors" h1
  have hy : jsTruthy y = true := by rw [hk]; rfl
  rw [normalizeSchema, isStructuredSchema]
  simp only [hy, h1, h2, Bool.true_and, Bool.or_true, Bool.true_or, if_true]
  rw [parseStructuredSchema]
  simp only [h1, h2, Bool.and_self, if_true]

theorem normalizeSchema_truthy_keys (x : Json) :
    jsTruthy (jsGet (normalizeSchema x) "selectors") = true ∧
    jsTruthy (jsGet (normalizeSchema x) "structure") = true := by
  rw [normalizeSchema]
  by_cases hs : isStructuredSchema x = true
  · rw [if_pos hs, parseStructuredSchema]
    by_cases h1 : (jsTruthy (jsGet x "selectors") && jsTruthy (jsGet x "structure")) = true
    · rw [if_pos h1]
      exact ⟨(Bool.and_eq_true _ _ |>.mp h1).1, (Bool.and_eq_true _ _ |>.mp h1).2⟩
    · rw [if_neg h1]
      by_cases h2 : (jsTruthy (jsGet x "type") || jsTruthy (jsGet x "properties")) = true
      · rw [if_pos h2]
        by_cases h3 : jsTruthy (jsGet x "properties") = true
        · rw [if_pos h3]
          constructor <;> rfl
        · rw [if_neg h3]
          constructor <;> rfl
      · rw [if_neg h2]
        by_cases h4 : jsTruthy (jsGet x "fields") = true
        · rw [if_pos h4]
          constructor <;> rfl
        · rw [if_neg h4, convertToStructuredSchema]
          constructor <;> rfl
  · rw [if_neg hs, convertToStructuredSchema]
    constructor <;> rfl

/-!  Claim theorems. -/

/-- C1: the claim states that a raw schema whose only recognised top-level key
is a legacy `fields` map normalizes to per-entry `selectors`/`structure`
entries.  The code routes such a schema through `convertToStructuredSchema`
(because `isStructuredSchema` never tests `fields`), which drops the
object-valued `fields` entry entirely, yielding empty maps; the legacy branch
of `parseStructuredSchema` — which implements exactly the claimed translation,
as the second conjunct shows — is unreachable for this shape. -/
theorem c1_fields_only_normalizes_empty :
    normalizeSchema
        (Json.obj [("fields", Json.obj [("title", Json.str ".headline")])]) =
      Json.obj [("selectors", Json.obj []), ("structure", Json.obj [])] ∧
    parseStructuredSchema
        (Json.obj [("fields", Json.obj [("title", Json.str ".headline")])]) =
      Json.obj [("selectors", Json.obj [("title", Json.str ".headline")]),
        ("structure", Json.obj [("title", Json.obj
          [("type", Json.str "string"),
           ("description", Json.str "Extracted from .headline"),
           ("nullable", Json.bool true)])])] := by
  constructor
  · rfl
  · rfl

/-- C2 counterexample: the claim says a raw `null` under a descriptor that
omits `nullable` stays present with value `null`; the code checks truthiness
of `nullable`, so the field is absent (the claimed equation to `null` fails —
the lookup yields `undefined`). -/
theorem c2_counterexample :
    ¬ jsGet (validateAndStructure (Json.obj [("title", Json.null)])
        (Json.obj [("title", Json.obj [("type", Json.str "string")])]))
        "title" = Json.null := by
  intro h
  exact Json.noConfusion h

/-- C2 (amended): for a raw value that is exactly `null`, the field is present
with value `null` iff the descriptor's `nullable` is truthy; with
`nullable:false` or `nullable` omitted the field is absent. -/
theorem c2_null_field_policy (data : Json) (field : String) (desc : Json)
    (h : jsGet data field = Json.null) :
    jsGet (validateAndStructure data (Json.obj [(field, desc)])) field =
      (if jsTruthy (jsGet desc "nullable") = true then Json.null
       else Json.undefined) := by
  rw [validateAndStructure]
  simp only [jsEntries, List.filterMap]
  rw [h]
  simp only [isUndefined, isNull, Bool.false_and, Bool.false_eq_true, if_false]
  by_cases hn : jsTruthy (jsGet desc "nullable") = true
  · simp only [hn, if_true]
    rw [jsGet, jsGetEntries, if_pos rfl]
  · simp only [hn, if_false]
    rfl

/-- C2 witness: a concrete `nullable:true` descriptor keeps the null field. -/
theorem c2_witness :
    jsGet (validateAndStructure (Json.obj [("t", Json.null)])
        (Json.obj [("t", Json.obj [("nullable", Json.bool true)])])) "t" =
      Json.null := by
  have := c2_null_field_policy (Json.obj [("t", Json.null)]) "t"
    (Json.obj [("nullable", Json.bool true)]) (by rfl)
  simpa using this

/-- C3 counterexample: the claim says a declared property is included when its
name appears in the parent descriptor's `required` list.  Here the parent
descriptor requires `a`, the raw object is empty, and the child descriptor has
no `required` of its own — the code excludes `a` (the lookup yields
`undefined`), because `convertToType` consults `propSchema.required`, the
property's own descriptor, not the parent's. -/
theorem c3_counterexample :
    jsGet (convertToType (Json.obj [])
        (Json.obj [("type", Json.str "object"),
          ("required", Json.arr [Json.str "a"]),
          ("properties", Json.obj [("a", Json.obj [("type", Json.str "string")])])]))
        "a" = Json.undefined ∧
    jsRequiredIncl (jsGet
        (Json.obj [("type", Json.str "object"),
          ("required", Json.arr [Json.str "a"]),
          ("properties", Json.obj [("a", Json.obj [("type", Json.str "string")])])])
        "required") "a" = true := by
  constructor
  · rfl
  · rfl

/-- C3 (amended): for an object-typed coercion with a `properties` map (with
distinct property names), the result contains exactly the declared property
keys that are present (not `undefined`) in the shaped raw object or named in
their own nested descriptor's `required` list; every included value is the
recursive coercion of the (possibly `undefined`) raw value by the nested
descriptor, and keys not declared in `properties` never appear. -/
theorem c3_object_properties (value schema : Json)
    (plist : List (String × Json))
    (hT : jsGet schema "type" = Json.str "object")
    (hp : jsGet schema "properties" = Json.obj plist)
    (hnd : (plist.map Prod.fst).Nodup) :
    (∀ n ps, (n, ps) ∈ plist →
      jsGet (convertToType value schema) n =
        (if propIncluded (objOrEmpty value) n ps = true then
          convertToType (jsGet (objOrEmpty value) n) ps
        else Json.undefined)) ∧
    (∀ n, n ∉ plist.map Prod.fst →
      jsGet (convertToType value schema) n = Json.undefined) := by
  rw [convertToType_object_eq value schema plist hT hp]
  constructor
  · intro n ps hmem
    rw [jsGet]
    have := jsGetEntries_filterMap_keyed
      (fun p => propIncluded (objOrEmpty value) p.1 p.2)
      (fun p => convertToType (jsGet (objOrEmpty value) p.1) p.2)
      n ps plist hnd hmem
    simpa using this
  · intro n hn
    rw [jsGet]
    refine jsGetEntries_filterMap_none _ ?_ n plist hn
    intro p q hpq
    by_cases hcp : propIncluded (objOrEmpty value) p.1 p.2 = true
    · rw [if_pos hcp] at hpq
      cases hpq
      rfl
    · rw [if_neg hcp] at hpq
      cases hpq

/-- C3 witness: a present property is kept and coerced, an absent one is
dropped, an undeclared raw key never appears. -/
theorem c3_witness :
    jsGet (convertToType (Json.obj [("x", Json.str "1"), ("z", Json.str "zz")])
        (Json.obj [("type", Json.str "object"),
          ("properties", Json.obj [("x", Json.obj [("type", Json.str "string")]),
            ("y", Json.obj [("type", Json.str "string")])])]))
        "x" = Json.str "1" ∧
    jsGet (convertToType (Json.obj [("x", Json.str "1"), ("z", Json.str "zz")])
        (Json.obj [("type", Json.str "object"),
          ("properties", Json.obj [("x", Json.obj [("type", Json.str "string")]),
            ("y", Json.obj [("type", Json.str "string")])])]))
        "y" = Json.undefined ∧
    jsGet (convertToType (Json.obj [("x", Json.str "1"), ("z", Json.str "zz")])
        (Json.obj [("type", Json.str "object"),
          ("properties", Json.obj [("x", Json.obj [("type", Json.str "string")]),
            ("y", Json.obj [("type", Json.str "string")])])]))
        "z" = Json.undefined := by
  refine ⟨?_, ?_, ?_⟩
  · have := (c3_object_properties
      (Json.obj [("x", Json.str "1"), ("z", Json.str "zz")])
      (Json.obj [("type", Json.str "object"),
        ("properties", Json.obj [("x", Json.obj [("type", Json.str "string")]),
          ("y", Json.obj [("type", Json.str "string")])])])
      [("x", Json.obj [("type", Json.str "string")]),
       ("y", Json.obj [("type", Json.str "string")])]
      rfl rfl (by simp)).1 "x" (Json.obj [("type", Json.str "string")])
      (by simp)
    simpa using this
  · have := (c3_object_properties
      (Json.obj [("x", Json.str "1"), ("z", Json.str "zz")])
      (Json.obj [("type", Json.str "object"),
        ("properties", Json.obj [("x", Json.obj [("type", Json.str "string")]),
          ("y", Json.obj [("type", Json.str "string")])])])
      [("x", Json.obj [("type", Json.str "string")]),
       ("y", Json.obj [("type", Json.str "string")])]
      rfl rfl (by simp)).1 "y" (Json.obj [("type", Json.str "string")])
      (by simp)
    simpa using this
  · exact (c3_object_properties
      (Json.obj [("x", Json.str "1"), ("z", Json.str "zz")])
      (Json.obj [("type", Json.str "object"),
        ("properties", Json.obj [("x", Json.obj [("type", Json.str "string")]),
          ("y", Json.obj [("type", Json.str "string")])])])
      [("x", Json.obj [("type", Json.str "string")]),
       ("y", Json.obj [("type", Json.str "string")])]
      rfl rfl (by simp)).2 "z" (by simp)

/-- C4 counterexample: with a non-empty `structure` map, a field present in
`selectors` but absent from `structure` does not appear in the structured
output at all (the claim says its raw value appears unchanged).  The second
conjunct shows the raw extraction for that field did produce a value. -/
theorem c4_counterexample :
    jsGet (extractStructuredData
        (fun s => match s with
          | .str ".a" => .ok [⟨"x", none⟩]
          | .str ".b" => .ok [⟨"y", none⟩]
          | _ => .ok [])
        (Json.obj [("selectors", Json.obj [("a", Json.str ".a"), ("b", Json.str ".b")]),
          ("structure", Json.obj [("a", Json.obj [("type", Json.str "string")])])])
        "2026-01-01T00:00:00.000Z") "b" = Json.undefined ∧
    extractFieldRaw
        (fun s => match s with
          | .str ".a" => .ok [⟨"x", none⟩]
          | .str ".b" => .ok [⟨"y", none⟩]
          | _ => .ok [])
        "b" (Json.str ".b") = Json.str "y" := by
  constructor
  · rfl
  · rfl

/-- C4 (amended): whenever the canonical schema's `structure` is truthy, every
field not named in the `structure` map — in particular a field present only in
`selectors` — is absent from the structured output; raw values pass through
unchanged only when `structure` is absent or falsy. -/
theorem c4_structure_drops_unlisted (doc : Json → Except Unit (List Node))
    (schema : Json) (now : String) (field : String)
    (hst : jsTruthy (jsGet schema "structure") = true)
    (hmeta : field ≠ "_metadata")
    (hfield : field ∉ (jsEntries (jsGet schema "structure")).map Prod.fst) :
    jsGet (extractStructuredData doc schema now) field = Json.undefined := by
  rw [extractStructuredData]
  simp only [hst, Bool.not_true, Bool.false_eq_true, if_false]
  generalize Json.obj (rawExtract doc (jsEntries (jsGet schema "selectors"))) = raw
  rw [addMetadata, jsGet]
  rw [jsGetEntries_jsSet_ne _ _ _ field hmeta]
  cases hs : jsGet schema "structure" with
  | obj skvs =>
    rw [hs] at hfield
    rw [validateAndStructure]
    simp only [jsEntries] at hfield ⊢
    refine jsGetEntries_filterMap_none _ ?_ field skvs hfield
    intro p q hpq
    simp only [] at hpq
    by_cases h1 : (isUndefined (jsGet raw p.1) &&
        !jsRequiredIncl (jsGet p.2 "required") p.1) = true
    · rw [if_pos h1] at hpq
      cases hpq
    · rw [if_neg h1] at hpq
      by_cases h2 : isNull (jsGet raw p.1) = true
      · rw [if_pos h2] at hpq
        by_cases h3 : jsTruthy (jsGet p.2 "nullable") = true
        · rw [if_pos h3] at hpq
          cases hpq
          rfl
        · rw [if_neg h3] at hpq
          cases hpq
      · rw [if_neg h2] at hpq
        cases hpq
        rfl
  | null => rw [hs] at hst; simp [jsTruthy] at hst
  | undefined => rw [hs] at hst; simp [jsTruthy] at hst
  | bool b => rfl
  | num n => rfl
  | str s => rfl
  | arr xs => rfl

/-- C4 witness: concrete schema where `b` has a selector but no structure
entry: the structured output omits `b`. -/
theorem c4_witness :
    jsGet (extractStructuredData
        (fun s => match s with
          | .str ".a" => .ok [⟨"x", none⟩]
          | .str ".b" => .ok [⟨"y", none⟩]
          | _ => .ok [])
        (Json.obj [("selectors", Json.obj [("a", Json.str ".a"), ("b", Json.str ".b")]),
          ("structure", Json.obj [("a", Json.obj [("type", Json.str "string")])])])
        "now") "b" = Json.undefined :=
  c4_structure_drops_unlisted
    (fun s => match s with
      | .str ".a" => .ok [⟨"x", none⟩]
      | .str ".b" => .ok [⟨"y", none⟩]
      | _ => .ok [])
    (Json.obj [("selectors", Json.obj [("a", Json.str ".a"), ("b", Json.str ".b")]),
      ("structure", Json.obj [("a", Json.obj [("type", Json.str "string")])])])
    "now" "b" (by rfl) (by simp) (by simp [jsEntries, jsGet, jsGetEntries])

/-- C5: normalization is idempotent — `normalize (normalize x) = normalize x`
for every input — and any object whose `selectors` and `structure` keys both
carry canonical maps is returned unchanged, so canonical form is a fixed
point. -/
theorem c5_normalize_idempotent :
    (∀ x : Json, normalizeSchema (normalizeSchema x) = normalizeSchema x) ∧
    (∀ (kvs : List (String × Json)) (s t : List (String × Json)),
      jsGet (Json.obj kvs) "selectors" = Json.obj s →
      jsGet (Json.obj kvs) "structure" = Json.obj t →
      normalizeSchema (Json.obj kvs) = Json.obj kvs) := by
  constructor
  · intro x
    obtain ⟨h1, h2⟩ := normalizeSchema_truthy_keys x
    exact normalizeSchema_canonical (normalizeSchema x) h1 h2
  · intro kvs s t h1 h2
    exact normalizeSchema_canonical _ (by rw [h1]; rfl) (by rw [h2]; rfl)

/-- C5 witness: a concrete canonical schema is a fixed point of
normalization. -/
theorem c5_witness :
    normalizeSchema (Json.obj [("selectors", Json.obj [("t", Json.str ".t")]),
        ("structure", Json.obj [("t", Json.obj [("type", Json.str "string")])])]) =
      Json.obj [("selectors", Json.obj [("t", Json.str ".t")]),
        ("structure", Json.obj [("t", Json.obj [("type", Json.str "string")])])] :=
  c5_normalize_idempotent.2 _ _ _ rfl rfl

/-- C6: for a field whose name contains neither `url` nor `comment`
(case-insensitively) and whose selector query succeeds, more than one matched
node yields the array of per-node trimmed texts in document order, exactly one
node yields its trimmed text as a bare string, and zero nodes yield `null`;
the raw-extraction loop applies this per entry of `selectors`. -/
theorem c6_plain_field_extraction (doc : Json → Except Unit (List Node))
    (fieldName : String) (selector : Json) (els : List Node)
    (hurl : strContains (asciiLower fieldName) "url" = false)
    (hcom : strContains (asciiLower fieldName) "comment" = false)
    (hdoc : doc selector = Except.ok els) :
    (els.length > 1 →
      extractFieldRaw doc fieldName selector =
        Json.arr (els.map (fun n => Json.str (jsTrim n.text)))) ∧
    (∀ n, els = [n] →
      extractFieldRaw doc fieldName selector = Json.str (jsTrim n.text)) ∧
    (els = [] → extractFieldRaw doc fieldName selector = Json.null) ∧
    (∀ sels, rawExtract doc sels =
      sels.map (fun p => (p.1, extractFieldRaw doc p.1 p.2))) := by
  refine ⟨?_, ?_, ?_, fun sels => rfl⟩
  · intro hlen
    rw [extractFieldRaw, hdoc]
    simp only [hurl, hcom, Bool.false_eq_true, if_false]
    rw [if_pos hlen]
  · intro n hn
    subst hn
    rw [extractFieldRaw, hdoc]
    simp only [hurl, hcom, Bool.false_eq_true, if_false]
    rfl
  · intro hn
    subst hn
    rw [extractFieldRaw, hdoc]
    simp only [hurl, hcom, Bool.false_eq_true, if_false]
    rfl

/-- C6 witness: three matches give the trimmed array, one match the bare
trimmed string, zero matches `null`. -/
theorem c6_witness :
    extractFieldRaw
        (fun s => match s with
          | .str ".item" => .ok [⟨" a ", none⟩, ⟨"b", none⟩, ⟨" c", none⟩]
          | .str ".t" => .ok [⟨"  Hello World  ", none⟩]
          | _ => .ok [])
        "items" (Json.str ".item") =
      Json.arr [Json.str "a", Json.str "b", Json.str "c"] ∧
    extractFieldRaw
        (fun s => match s with
          | .str ".item" => .ok [⟨" a ", none⟩, ⟨"b", none⟩, ⟨" c", none⟩]
          | .str ".t" => .ok [⟨"  Hello World  ", none⟩]
          | _ => .ok [])
        "title" (Json.str ".t") = Json.str "Hello World" ∧
    extractFieldRaw
        (fun s => match s with
          | .str ".item" => .ok [⟨" a ", none⟩, ⟨"b", none⟩, ⟨" c", none⟩]
          | .str ".t" => .ok [⟨"  Hello World  ", none⟩]
          | _ => .ok [])
        "title" (Json.str ".missing") = Json.null := by
  refine ⟨?_, ?_, ?_⟩
  · have := (c6_plain_field_extraction
      (fun s => match s with
        | .str ".item" => .ok [⟨" a ", none⟩, ⟨"b", none⟩, ⟨" c", none⟩]
        | .str ".t" => .ok [⟨"  Hello World  ", none⟩]
        | _ => .ok [])
      "items" (Json.str ".item")
      [⟨" a ", none⟩, ⟨"b", none⟩, ⟨" c", none⟩]
      (by rfl) (by rfl) rfl).1 (by simp)
    simpa using this
  · have := (c6_plain_field_extraction
      (fun s => match s with
        | .str ".item" => .ok [⟨" a ", none⟩, ⟨"b", none⟩, ⟨" c", none⟩]
        | .str ".t" => .ok [⟨"  Hello World  ", none⟩]
        | _ => .ok [])
      "title" (Json.str ".t") [⟨"  Hello World  ", none⟩]
      (by rfl) (by rfl) rfl).2.1 ⟨"  Hello World  ", none⟩ rfl
    simpa using this
  · exact (c6_plain_field_extraction
      (fun s => match s with
        | .str ".item" => .ok [⟨" a ", none⟩, ⟨"b", none⟩, ⟨" c", none⟩]
        | .str ".t" => .ok [⟨"  Hello World  ", none⟩]
        | _ => .ok [])
      "title" (Json.str ".missing") [] (by rfl) (by rfl) rfl).2.2.1 rfl

/-- C7: a selector-evaluation failure is confined to its own field — the field
resolves to `null` — and the raw-extraction loop treats every entry
independently, so all other fields are extracted exactly as `extractFieldRaw`
prescribes, unaffected by the failure. -/
theorem c7_selector_failure_isolated (doc : Json → Except Unit (List Node))
    (fieldName : String) (selector : Json)
    (h : doc selector = Except.error ()) :
    extractFieldRaw doc fieldName selector = Json.null ∧
    (∀ sels, rawExtract doc sels =
      sels.map (fun p => (p.1, extractFieldRaw doc p.1 p.2))) := by
  constructor
  · rw [extractFieldRaw, h]
  · intro sels
    rfl

/-- C7 witness: one failing selector yields `null` while a sibling field is
still extracted. -/
theorem c7_witness :
    extractFieldRaw
        (fun s => match s with
          | .str ".bad" => .error ()
          | .str ".t" => .ok [⟨"ok", none⟩]
          | _ => .ok [])
        "broken" (Json.str ".bad") = Json.null ∧
    rawExtract
        (fun s => match s with
          | .str ".bad" => .error ()
          | .str ".t" => .ok [⟨"ok", none⟩]
          | _ => .ok [])
        [("broken", Json.str ".bad"), ("title", Json.str ".t")] =
      [("broken", Json.null), ("title", Json.str "ok")] := by
  constructor
  · exact (c7_selector_failure_isolated
      (fun s => match s with
        | .str ".bad" => .error ()
        | .str ".t" => .ok [⟨"ok", none⟩]
        | _ => .ok [])
      "broken" (Json.str ".bad") rfl).1
  · rfl

/-- C8: every assembler output carries `_metadata.schemaVersion = "1.0"`, and
metadata exclusion removes exactly the `_metadata` key: every other key maps
to the identical value it had before exclusion. -/
theorem c8_metadata_assembly_exclusion (kvs : List (String × Json))
    (now : String) :
    jsGet (jsGet (addMetadata (Json.obj kvs) now) "_metadata")
        "schemaVersion" = Json.str "1.0" ∧
    jsGet (excludeMetadata (Json.obj kvs)) "_metadata" = Json.undefined ∧
    (∀ k, k ≠ "_metadata" →
      jsGet (excludeMetadata (Json.obj kvs)) k = jsGet (Json.obj kvs) k) := by
  refine ⟨?_, ?_, ?_⟩
  · rw [addMetadata]
    show jsGet (jsGetEntries (jsSet kvs "_metadata" (metadataObj now))
      "_metadata") "schemaVersion" = Json.str "1.0"
    rw [jsGetEntries_jsSet_self]
    rfl
  · rw [excludeMetadata]
    exact jsGetEntries_filter_key "_metadata" kvs
  · intro k hk
    rw [excludeMetadata]
    exact jsGetEntries_filter_ne "_metadata" k hk kvs

/-- C8 witness: a concrete output keeps its user key byte-for-byte under
exclusion and reports schema version 1.0. -/
theorem c8_witness :
    jsGet (jsGet (addMetadata (Json.obj [("title", Json.str "x")]) "now")
        "_metadata") "schemaVersion" = Json.str "1.0" ∧
    jsGet (excludeMetadata (Json.obj [("title", Json.str "x"),
        ("_metadata", Json.obj [])])) "_metadata" = Json.undefined ∧
    jsGet (excludeMetadata (Json.obj [("title", Json.str "x"),
        ("_metadata", Json.obj [])])) "title" = Json.str "x" := by
  refine ⟨?_, ?_, ?_⟩
  · exact (c8_metadata_assembly_exclusion [("title", Json.str "x")] "now").1
  · exact (c8_metadata_assembly_exclusion
      [("title", Json.str "x"), ("_metadata", Json.obj [])] "now").2.1
  · have := (c8_metadata_assembly_exclusion
      [("title", Json.str "x"), ("_metadata", Json.obj [])] "now").2.2 "title"
      (by simp)
    simpa using this

/-- C9: type coercion under a descriptor whose `type` tag is none of the five
handled names — including the tag `null`, which the public `SchemaType` union
permits — returns the raw value unchanged (the model is a total function, so
no exception is possible). -/
theorem c9_unknown_tag_identity (value : Json) (kvs : List (String × Json))
    (h : jsGet (Json.obj kvs) "type" ∉ typeNames.map Json.str) :
    convertToType value (Json.obj kvs) = value := by
  have hpos := jsonFuel_pos (Json.obj kvs)
  obtain ⟨k, hk⟩ : ∃ k, jsonFuel (Json.obj kvs) = k + 1 :=
    ⟨jsonFuel (Json.obj kvs) - 1, by omega⟩
  rw [convertToType, hk]
  cases hT : jsGet (Json.obj kvs) "type" with
  | str s =>
    rw [hT] at h
    simp only [typeNames, List.map_cons, List.map_nil, List.mem_cons,
      List.mem_singleton, Json.str.injEq, not_or] at h
    obtain ⟨h1, h2, h3, h4, h5, -⟩ := h
    simp only [convertToTypeFuel, hT, if_neg h1, if_neg h2, if_neg h3,
      if_neg h5, if_neg h4]
  | null => simp only [convertToTypeFuel, hT]
  | undefined => simp only [convertToTypeFuel, hT]
  | bool b => simp only [convertToTypeFuel, hT]
  | num n => simp only [convertToTypeFuel, hT]
  | arr xs => simp only [convertToTypeFuel, hT]
  | obj okvs => simp only [convertToTypeFuel, hT]

/-- C9 witness: the tag `null` leaves a string value untouched. -/
theorem c9_witness :
    convertToType (Json.str "x") (Json.obj [("type", Json.str "null")]) =
      Json.str "x" :=
  c9_unknown_tag_identity (Json.str "x") [("type", Json.str "null")]
    (by simp [typeNames, jsGet, jsGetEntries])

/-- C10 counterexample: the already-canonical branch passes any truthy
`selectors`/`structure` values through unchanged, so a schema carrying truthy
non-map values under those keys normalizes to itself — an output whose
`selectors` is a string, not a map, contradicting the claim that every
normalization result possesses a `selectors` map. -/
theorem c10_counterexample :
    normalizeSchema (Json.obj [("selectors", Json.str "x"),
        ("structure", Json.str "y")]) =
      Json.obj [("selectors", Json.str "x"), ("structure", Json.str "y")] ∧
    ¬ ∃ s : List (String × Json),
      jsGet (normalizeSchema (Json.obj [("selectors", Json.str "x"),
          ("structure", Json.str "y")])) "selectors" = Json.obj s := by
  constructor
  · rfl
  · rintro ⟨s, hs⟩
    exact Json.noConfusion hs

/-- C10 (amended): every normalization result is an object carrying both a
`selectors` and a `structure` key with truthy values — so downstream
extraction never receives a schema missing the `selectors` key — and every
branch other than the already-canonical pass-through (i.e. whenever the input
does not already have truthy `selectors` and `structure`) produces genuine,
possibly empty, `selectors` and `structure` maps. -/
theorem c10_normalize_shape :
    (∀ x : Json, ∃ kvs, normalizeSchema x = Json.obj kvs ∧
      jsTruthy (jsGet (normalizeSchema x) "selectors") = true ∧
      jsTruthy (jsGet (normalizeSchema x) "structure") = true) ∧
    (∀ x : Json,
      ¬(jsTruthy (jsGet x "selectors") = true ∧
        jsTruthy (jsGet x "structure") = true) →
      ∃ s t, normalizeSchema x =
        Json.obj [("selectors", Json.obj s), ("structure", Json.obj t)]) := by
  constructor
  · intro x
    obtain ⟨h1, h2⟩ := normalizeSchema_truthy_keys x
    obtain ⟨kvs, hk⟩ := jsTruthy_jsGet_obj (normalizeSchema x) "selectors" h1
    exact ⟨kvs, hk, h1, h2⟩
  · intro x hnc
    rw [normalizeSchema]
    by_cases hs : isStructuredSchema x = true
    · rw [if_pos hs, parseStructuredSchema]
      have h1 : ¬(jsTruthy (jsGet x "selectors") &&
          jsTruthy (jsGet x "structure")) = true := by
        intro hb
        exact hnc ⟨(Bool.and_eq_true _ _ |>.mp hb).1,
          (Bool.and_eq_true _ _ |>.mp hb).2⟩
      rw [if_neg h1]
      by_cases h2 : (jsTruthy (jsGet x "type") ||
          jsTruthy (jsGet x "properties")) = true
      · rw [if_pos h2]
        by_cases h3 : jsTruthy (jsGet x "properties") = true
        · rw [if_pos h3]
          exact ⟨_, _, rfl⟩
        · rw [if_neg h3]
          exact ⟨_, _, rfl⟩
      · rw [if_neg h2]
        by_cases h4 : jsTruthy (jsGet x "fields") = true
        · rw [if_pos h4]
          exact ⟨_, _, rfl⟩
        · rw [if_neg h4, convertToStructuredSchema]
          exact ⟨_, _, rfl⟩
    · rw [if_neg hs, convertToStructuredSchema]
      exact ⟨_, _, rfl⟩

/-- C10 witness: a flat selector map normalizes to an object with both keys
truthy, and (being non-canonical) to literal maps. -/
theorem c10_witness :
    (∃ kvs, normalizeSchema (Json.obj [("title", Json.str ".headline")]) =
        Json.obj kvs ∧
      jsTruthy (jsGet (normalizeSchema
        (Json.obj [("title", Json.str ".headline")])) "selectors") = true ∧
      jsTruthy (jsGet (normalizeSchema
        (Json.obj [("title", Json.str ".headline")])) "structure") = true) ∧
    (∃ s t, normalizeSchema (Json.obj [("title", Json.str ".headline")]) =
        Json.obj [("selectors", Json.obj s), ("structure", Json.obj t)]) := by
  constructor
  · exact c10_normalize_shape.1 (Json.obj [("title", Json.str ".headline")])
  · exact c10_normalize_shape.2 (Json.obj [("title", Json.str ".headline")])
      (by rintro ⟨ha, -⟩; exact Bool.noConfusion (show false = true from ha))
